import Mathlib

/-!
Shallow embedding of the `write_buf` crate (src/lib.rs): the buffered writer
`WriteBufVec<T: Write>` wrapping an arbitrary byte sink.

Bytes are modelled as `Nat`, byte slices as `List Nat`.  The wrapped sink
(`T: Write`) is modelled as a state machine `Sink σ ε`: `write` takes the
sink state and a chunk and returns a result (`Except ε Nat`, the accepted
count or an I/O error) together with the new sink state; `flush` is the
sink's own flush capability (never invoked by the buffered writer, mirroring
the source, which only calls `self.writer.write`).

Each operation of the buffered writer additionally returns the trace of
calls it made to the wrapped sink (a `List SinkCall`), so that "exactly one
sink write with argument B" is directly statable.
-/

/-- One call made to the wrapped sink: a write of a chunk, or a flush. -/
inductive SinkCall where
  | write (chunk : List Nat)
  | flush
deriving DecidableEq

/-- The wrapped sink: the `std::io::Write` capability set, as a state machine
over sink states `σ` with error type `ε`.  `write` returns the accepted count
or an error, plus the new sink state (the sink may mutate even on error). -/
structure Sink (σ ε : Type) where
  write : σ → List Nat → Except ε Nat × σ
  flush : σ → Except ε Unit × σ

/-- `struct WriteBufVec<T: Write> { len: usize, buf: Vec<u8>, writer: T }`.
The `len()` accessor of the source is the `len` field. -/
structure WriteBufVec (σ : Type) where
  len : Nat
  buf : List Nat
  writer : σ
deriving DecidableEq

/-- `WriteBufVec::new(writer)`: zero length, empty buffer, owns the sink. -/
def WriteBufVec.new {σ : Type} (writer : σ) : WriteBufVec σ :=
  ⟨0, [], writer⟩

/-- `fn flush(&mut self) { self.writer.write(self.buf.as_slice())?; Ok(()) }`:
one call of the sink's `write` with the whole buffer; the accepted count is
discarded; an error is propagated by `?`.  Buffer and length are untouched.
The third component is the trace of sink calls (always exactly one write). -/
def WriteBufVec.flush {σ ε : Type} (sink : Sink σ ε) (w : WriteBufVec σ) :
    Except ε Unit × WriteBufVec σ × List SinkCall :=
  match sink.write w.writer w.buf with
  | (Except.error e, s) => (Except.error e, ⟨w.len, w.buf, s⟩, [SinkCall.write w.buf])
  | (Except.ok _, s) => (Except.ok (), ⟨w.len, w.buf, s⟩, [SinkCall.write w.buf])

/-- `fn write(&mut self, buf: &[u8])`: if `self.len + l < 1024 * 1024` the
chunk is appended (`self.len += l; self.buf.extend_from_slice(buf)`); else
`self.flush()?` then `self.buf.clear(); self.buf.extend_from_slice(buf);
self.len = l`.  Returns `Ok(l)` on both paths, plus the trace of sink
calls. -/
def WriteBufVec.write {σ ε : Type} (sink : Sink σ ε) (w : WriteBufVec σ)
    (chunk : List Nat) : Except ε Nat × WriteBufVec σ × List SinkCall :=
  let l := chunk.length
  if w.len + l < 1024 * 1024 then
    (Except.ok l, ⟨w.len + l, w.buf ++ chunk, w.writer⟩, [])
  else
    match WriteBufVec.flush sink w with
    | (Except.error e, w', tr) => (Except.error e, w', tr)
    | (Except.ok _, w', tr) => (Except.ok l, ⟨l, chunk, w'.writer⟩, tr)

/-- A sequence of `write` calls; returns the final writer state, the
concatenated trace of sink calls, and the list of per-call results. -/
def WriteBufVec.writeSeq {σ ε : Type} (sink : Sink σ ε) (w : WriteBufVec σ) :
    List (List Nat) → WriteBufVec σ × List SinkCall × List (Except ε Nat)
  | [] => (w, [], [])
  | c :: cs =>
    let r := WriteBufVec.write sink w c
    let rest := WriteBufVec.writeSeq sink r.2.1 cs
    (rest.1, r.2.2 ++ rest.2.1, r.1 :: rest.2.2)

/-- Total length of a list of chunks. -/
def totalLen (chunks : List (List Nat)) : Nat :=
  (chunks.map List.length).sum

/-- Concatenation of a list of chunks. -/
def concatChunks (chunks : List (List Nat)) : List Nat :=
  chunks.foldr (fun c acc => c ++ acc) []

/-- The invariant of the data model: the tracked length equals the actual
byte count of the buffer. -/
def WBinv {σ : Type} (w : WriteBufVec σ) : Prop :=
  w.buf.length = w.len

/-- A test sink that accepts every chunk in full and records the history of
chunks written to it. -/
def listSink : Sink (List (List Nat)) Unit :=
  ⟨fun s chunk => (Except.ok chunk.length, s ++ [chunk]),
   fun s => (Except.ok (), s)⟩

/-- A test sink whose write always fails. -/
def failSink : Sink Unit Unit :=
  ⟨fun s _ => (Except.error (), s),
   fun s => (Except.ok (), s)⟩

/-- A test sink that always reports a short write of 0 bytes accepted. -/
def shortSink : Sink Unit Unit :=
  ⟨fun s _ => (Except.ok 0, s),
   fun s => (Except.ok (), s)⟩

theorem totalLen_nil : totalLen [] = 0 := rfl

theorem totalLen_cons (c : List Nat) (cs : List (List Nat)) :
    totalLen (c :: cs) = c.length + totalLen cs := by
  simp [totalLen]

theorem totalLen_append (a b : List (List Nat)) :
    totalLen (a ++ b) = totalLen a + totalLen b := by
  simp [totalLen]

theorem concatChunks_cons (c : List Nat) (cs : List (List Nat)) :
    concatChunks (c :: cs) = c ++ concatChunks cs := rfl

/-- Full characterisation of a run of writes that stays strictly below the
threshold: every chunk is appended, no sink call happens, every call returns
`Ok` of its chunk's length. -/
theorem writeSeq_accum {σ ε : Type} (sink : Sink σ ε) (chunks : List (List Nat)) :
    ∀ w : WriteBufVec σ, w.len + totalLen chunks < 1024 * 1024 →
      WriteBufVec.writeSeq sink w chunks =
        (⟨w.len + totalLen chunks, w.buf ++ concatChunks chunks, w.writer⟩, [],
         chunks.map fun c => (Except.ok c.length : Except ε Nat)) := by
  induction chunks with
  | nil =>
    intro w h
    simp [WriteBufVec.writeSeq, totalLen_nil, concatChunks]
  | cons c cs ih =>
    intro w h
    rw [totalLen_cons] at h
    have hc : w.len + c.length < 1024 * 1024 := by omega
    have hw : WriteBufVec.write sink w c =
        (Except.ok c.length, ⟨w.len + c.length, w.buf ++ c, w.writer⟩, []) := by
      simp [WriteBufVec.write, hc]
    have h' : (w.len + c.length) + totalLen cs < 1024 * 1024 := by omega
    have hrec := ih ⟨w.len + c.length, w.buf ++ c, w.writer⟩ h'
    simp [WriteBufVec.writeSeq, hw, hrec, totalLen_cons, concatChunks_cons,
      Nat.add_assoc, List.append_assoc]

/-- C1: on the overflow path (`n + m >= 1,048,576`, including the case where
the chunk alone reaches the threshold), a `write` whose triggered sink write
succeeds performs exactly one sink write containing the prior buffered bytes,
then stores the new chunk whole as the sole buffer content, sets the length
counter to the chunk's length, and returns `Ok` of that length. -/
theorem claimC1 {σ ε : Type} (sink : Sink σ ε) (w : WriteBufVec σ)
    (chunk : List Nat) (k : Nat) (s' : σ)
    (hover : 1024 * 1024 ≤ w.len + chunk.length)
    (hsink : sink.write w.writer w.buf = (Except.ok k, s')) :
    (WriteBufVec.write sink w chunk).1 = Except.ok chunk.length ∧
    (WriteBufVec.write sink w chunk).2.2 = [SinkCall.write w.buf] ∧
    (WriteBufVec.write sink w chunk).2.1.buf = chunk ∧
    (WriteBufVec.write sink w chunk).2.1.len = chunk.length := by
  have hnl : ¬ (w.len + chunk.length < 1024 * 1024) := by omega
  simp [WriteBufVec.write, WriteBufVec.flush, hnl, hsink]

theorem claimC1_witness :
    1024 * 1024 ≤ (WriteBufVec.new ([] : List (List Nat))).len +
      (List.replicate (1024 * 1024) 7).length ∧
    (WriteBufVec.write listSink (WriteBufVec.new [])
        (List.replicate (1024 * 1024) 7)).2.2 = [SinkCall.write []] ∧
    (WriteBufVec.write listSink (WriteBufVec.new [])
        (List.replicate (1024 * 1024) 7)).2.1.len =
      (List.replicate (1024 * 1024) 7).length := by
  have hle : 1024 * 1024 ≤ (WriteBufVec.new ([] : List (List Nat))).len +
      (List.replicate (1024 * 1024) 7).length := by
    rw [List.length_replicate]
    omega
  have h := claimC1 listSink (WriteBufVec.new []) (List.replicate (1024 * 1024) 7)
    0 [[]] hle rfl
  exact ⟨hle, h.2.1, h.2.2.2⟩

/-- C2: for a run of writes whose cumulative length (added to the current
length) stays strictly below 1,048,576, every chunk is appended whole, every
call returns `Ok` of its chunk's length, no sink write occurs, the final
buffer is the old buffer followed by all chunks in order, and after each
prefix of the run the length counter equals the running total. -/
theorem claimC2 {σ ε : Type} (sink : Sink σ ε) (w : WriteBufVec σ)
    (chunks : List (List Nat))
    (h : w.len + totalLen chunks < 1024 * 1024) :
    (WriteBufVec.writeSeq sink w chunks).2.2 =
      chunks.map (fun c => (Except.ok c.length : Except ε Nat)) ∧
    (WriteBufVec.writeSeq sink w chunks).2.1 = [] ∧
    (WriteBufVec.writeSeq sink w chunks).1.buf = w.buf ++ concatChunks chunks ∧
    (WriteBufVec.writeSeq sink w chunks).1.len = w.len + totalLen chunks ∧
    (WriteBufVec.writeSeq sink w chunks).1.writer = w.writer ∧
    ∀ pre suf, chunks = pre ++ suf →
      (WriteBufVec.writeSeq sink w pre).1.len = w.len + totalLen pre ∧
      (WriteBufVec.writeSeq sink w pre).2.1 = [] := by
  have hall := writeSeq_accum sink chunks w h
  refine ⟨by rw [hall], by rw [hall], by rw [hall], by rw [hall], by rw [hall], ?_⟩
  intro pre suf hsplit
  have hpre : w.len + totalLen pre < 1024 * 1024 := by
    rw [hsplit, totalLen_append] at h
    omega
  have hp := writeSeq_accum sink pre w hpre
  exact ⟨by rw [hp], by rw [hp]⟩

theorem claimC2_witness :
    (WriteBufVec.new ([] : List (List Nat))).len + totalLen [[1], [2, 3]] <
      1024 * 1024 ∧
    (WriteBufVec.writeSeq listSink (WriteBufVec.new []) [[1], [2, 3]]).2.1 = [] ∧
    (WriteBufVec.writeSeq listSink (WriteBufVec.new []) [[1], [2, 3]]).1.len =
      (WriteBufVec.new ([] : List (List Nat))).len + totalLen [[1], [2, 3]] := by
  have h := claimC2 listSink (WriteBufVec.new []) [[1], [2, 3]] (by decide)
  exact ⟨by decide, h.2.1, h.2.2.2.1⟩

/-- C3: if the sink write triggered on the overflow path fails, `write`
propagates the error, does not store the incoming chunk, and leaves the
buffer content and the length counter exactly as before the call. -/
theorem claimC3 {σ ε : Type} (sink : Sink σ ε) (w : WriteBufVec σ)
    (chunk : List Nat) (e : ε) (s' : σ)
    (hover : 1024 * 1024 ≤ w.len + chunk.length)
    (hfail : sink.write w.writer w.buf = (Except.error e, s')) :
    (WriteBufVec.write sink w chunk).1 = Except.error e ∧
    (WriteBufVec.write sink w chunk).2.1.buf = w.buf ∧
    (WriteBufVec.write sink w chunk).2.1.len = w.len := by
  have hnl : ¬ (w.len + chunk.length < 1024 * 1024) := by omega
  simp [WriteBufVec.write, WriteBufVec.flush, hnl, hfail]

theorem claimC3_witness :
    (WriteBufVec.write failSink (WriteBufVec.new ())
        (List.replicate (1024 * 1024) 0)).1 = Except.error () ∧
    (WriteBufVec.write failSink (WriteBufVec.new ())
        (List.replicate (1024 * 1024) 0)).2.1.buf = [] ∧
    (WriteBufVec.write failSink (WriteBufVec.new ())
        (List.replicate (1024 * 1024) 0)).2.1.len = 0 := by
  have hle : 1024 * 1024 ≤ (WriteBufVec.new ()).len +
      (List.replicate (1024 * 1024) 0).length := by
    rw [List.length_replicate]
    omega
  have h := claimC3 failSink (WriteBufVec.new ()) (List.replicate (1024 * 1024) 0)
    () () hle rfl
  exact ⟨h.1, h.2.1, h.2.2⟩

/-- C4: `flush` performs exactly one call of the sink's `write`, with the
whole buffer as argument, and never calls the sink's own `flush`; it leaves
the buffer content and the length counter unchanged on both outcomes, and
its result is the sink write's error if any, else `Ok ()`. -/
theorem claimC4 {σ ε : Type} (sink : Sink σ ε) (w : WriteBufVec σ) :
    (WriteBufVec.flush sink w).2.2 = [SinkCall.write w.buf] ∧
    SinkCall.flush ∉ (WriteBufVec.flush sink w).2.2 ∧
    (WriteBufVec.flush sink w).2.1.buf = w.buf ∧
    (WriteBufVec.flush sink w).2.1.len = w.len ∧
    (WriteBufVec.flush sink w).1 =
      (match (sink.write w.writer w.buf).1 with
       | Except.error e => Except.error e
       | Except.ok _ => Except.ok ()) := by
  rcases hw : sink.write w.writer w.buf with ⟨e | k, s⟩ <;>
    simp [WriteBufVec.flush, hw]

/-- C5: the invariant `buffer.length == tracked_length` holds after
construction and is preserved by `write` and by `flush`, whether the sink
call involved (if any) succeeds or fails. -/
theorem claimC5 {σ ε : Type} (sink : Sink σ ε) (s0 : σ) (w : WriteBufVec σ)
    (chunk : List Nat) (hinv : WBinv w) :
    WBinv (WriteBufVec.new s0) ∧
    WBinv (WriteBufVec.write sink w chunk).2.1 ∧
    WBinv (WriteBufVec.flush sink w).2.1 := by
  simp only [WBinv] at hinv
  refine ⟨by simp [WBinv, WriteBufVec.new], ?_, ?_⟩
  · by_cases hc : w.len + chunk.length < 1024 * 1024
    · simp [WriteBufVec.write, hc, WBinv, hinv]
    · rcases hw : sink.write w.writer w.buf with ⟨e | k, s⟩ <;>
        simp [WriteBufVec.write, WriteBufVec.flush, hc, hw, WBinv, hinv]
  · rcases hw : sink.write w.writer w.buf with ⟨e | k, s⟩ <;>
      simp [WriteBufVec.flush, hw, WBinv, hinv]

theorem claimC5_witness :
    WBinv (WriteBufVec.new ([] : List (List Nat))) ∧
    WBinv (WriteBufVec.write listSink ⟨2, [5, 6], []⟩ [7]).2.1 ∧
    WBinv (WriteBufVec.flush listSink ⟨2, [5, 6], []⟩).2.1 := by
  have h := claimC5 listSink [] ⟨2, [5, 6], []⟩ [7] rfl
  exact ⟨h.1, h.2.1, h.2.2⟩

/-- C6: `flush` issues a single sink write attempt with no retry: whenever
the sink's write returns `Ok n` for any count `n` (including a short count),
`flush` returns `Ok ()` and the trace shows exactly one write attempt. -/
theorem claimC6 {σ ε : Type} (sink : Sink σ ε) (w : WriteBufVec σ)
    (n : Nat) (s' : σ)
    (hok : sink.write w.writer w.buf = (Except.ok n, s')) :
    (WriteBufVec.flush sink w).1 = Except.ok () ∧
    (WriteBufVec.flush sink w).2.2 = [SinkCall.write w.buf] := by
  simp [WriteBufVec.flush, hok]

theorem claimC6_witness :
    (0 : Nat) < ([1, 2, 3] : List Nat).length ∧
    (WriteBufVec.flush shortSink ⟨3, [1, 2, 3], ()⟩).1 = Except.ok () ∧
    (WriteBufVec.flush shortSink ⟨3, [1, 2, 3], ()⟩).2.2 =
      [SinkCall.write [1, 2, 3]] := by
  have h := claimC6 shortSink ⟨3, [1, 2, 3], ()⟩ 0 () rfl
  exact ⟨by decide, h.1, h.2⟩

/-- C7: if the sink's write fails, `flush` propagates the error and leaves
the buffer content and the length counter unmodified, so a retried `flush`
passes exactly the same bytes to the sink again. -/
theorem claimC7 {σ ε : Type} (sink : Sink σ ε) (w : WriteBufVec σ)
    (e : ε) (s' : σ)
    (hfail : sink.write w.writer w.buf = (Except.error e, s')) :
    (WriteBufVec.flush sink w).1 = Except.error e ∧
    (WriteBufVec.flush sink w).2.1.buf = w.buf ∧
    (WriteBufVec.flush sink w).2.1.len = w.len ∧
    (WriteBufVec.flush sink (WriteBufVec.flush sink w).2.1).2.2 =
      [SinkCall.write w.buf] := by
  refine ⟨by simp [WriteBufVec.flush, hfail], by simp [WriteBufVec.flush, hfail],
    by simp [WriteBufVec.flush, hfail], ?_⟩
  have h1 : (WriteBufVec.flush sink w).2.1 = ⟨w.len, w.buf, s'⟩ := by
    simp [WriteBufVec.flush, hfail]
  rw [h1]
  rcases h2 : sink.write s' w.buf with ⟨r2, s2⟩
  cases r2 <;> simp [WriteBufVec.flush, h2]

theorem claimC7_witness :
    (WriteBufVec.flush failSink ⟨2, [5, 6], ()⟩).1 = Except.error () ∧
    (WriteBufVec.flush failSink ⟨2, [5, 6], ()⟩).2.1.buf = [5, 6] ∧
    (WriteBufVec.flush failSink
        (WriteBufVec.flush failSink ⟨2, [5, 6], ()⟩).2.1).2.2 =
      [SinkCall.write [5, 6]] := by
  have h := claimC7 failSink ⟨2, [5, 6], ()⟩ () () rfl
  exact ⟨h.1, h.2.1, h.2.2.2⟩

/-- C8: ten single-byte writes `[1], [2], ..., [10]` on a fresh writer make
no sink call; the following `flush` succeeds and delivers to the sink, in one
sink write, the bytes `[1, 2, ..., 10]` in input order. -/
theorem claimC8 :
    (WriteBufVec.writeSeq listSink (WriteBufVec.new [])
        [[1], [2], [3], [4], [5], [6], [7], [8], [9], [10]]).2.1 = [] ∧
    (WriteBufVec.flush listSink
        (WriteBufVec.writeSeq listSink (WriteBufVec.new [])
          [[1], [2], [3], [4], [5], [6], [7], [8], [9], [10]]).1).2.1.writer =
      [[1, 2, 3, 4, 5, 6, 7, 8, 9, 10]] ∧
    (WriteBufVec.flush listSink
        (WriteBufVec.writeSeq listSink (WriteBufVec.new [])
          [[1], [2], [3], [4], [5], [6], [7], [8], [9], [10]]).1).2.2 =
      [SinkCall.write [1, 2, 3, 4, 5, 6, 7, 8, 9, 10]] ∧
    (WriteBufVec.flush listSink
        (WriteBufVec.writeSeq listSink (WriteBufVec.new [])
          [[1], [2], [3], [4], [5], [6], [7], [8], [9], [10]]).1).1 =
      Except.ok () :=
  ⟨by decide, by decide, by decide, rfl⟩

/-- C9: a successful `flush` does not clear the buffer, so a second `flush`
sends the same bytes to the sink again, and an overflow-triggered flush
inside a later `write` re-sends the same already-forwarded bytes. -/
theorem claimC9 {σ ε : Type} (sink : Sink σ ε) (w : WriteBufVec σ)
    (chunk : List Nat)
    (hover : 1024 * 1024 ≤ w.len + chunk.length) :
    (WriteBufVec.flush sink w).2.2 ++
        (WriteBufVec.flush sink (WriteBufVec.flush sink w).2.1).2.2 =
      [SinkCall.write w.buf, SinkCall.write w.buf] ∧
    (WriteBufVec.write sink (WriteBufVec.flush sink w).2.1 chunk).2.2 =
      [SinkCall.write w.buf] := by
  have hnl : ¬ (w.len + chunk.length < 1024 * 1024) := by omega
  rcases h1 : sink.write w.writer w.buf with ⟨r1, s1⟩
  have hst : (WriteBufVec.flush sink w).2.1 = ⟨w.len, w.buf, s1⟩ := by
    cases r1 <;> simp [WriteBufVec.flush, h1]
  have htr : (WriteBufVec.flush sink w).2.2 = [SinkCall.write w.buf] := by
    cases r1 <;> simp [WriteBufVec.flush, h1]
  rcases h2 : sink.write s1 w.buf with ⟨r2, s2⟩
  constructor
  · rw [htr, hst]
    cases r2 <;> simp [WriteBufVec.flush, h2]
  · rw [hst]
    cases r2 <;> simp [WriteBufVec.write, WriteBufVec.flush, hnl, h2]

theorem claimC9_witness :
    (WriteBufVec.flush listSink ⟨2, [5, 6], []⟩).2.2 ++
        (WriteBufVec.flush listSink
          (WriteBufVec.flush listSink ⟨2, [5, 6], []⟩).2.1).2.2 =
      [SinkCall.write [5, 6], SinkCall.write [5, 6]] := by
  have hle : 1024 * 1024 ≤
      (⟨2, [5, 6], []⟩ : WriteBufVec (List (List Nat))).len +
        (List.replicate (1024 * 1024) 1).length := by
    rw [List.length_replicate]
    omega
  have h := claimC9 listSink ⟨2, [5, 6], []⟩ (List.replicate (1024 * 1024) 1) hle
  exact h.1

/-- C10: `flush` on an empty buffer still performs one sink write with the
empty chunk; hence the first `write` on a fresh writer with an oversized
chunk first issues a sink write of the empty chunk, and if the sink fails on
that empty write, the oversized chunk is rejected and not stored. -/
theorem claimC10 {σ ε : Type} (sink : Sink σ ε) (s0 : σ) (chunk : List Nat)
    (hover : 1024 * 1024 ≤ chunk.length) :
    (WriteBufVec.flush sink (WriteBufVec.new s0)).2.2 = [SinkCall.write []] ∧
    (WriteBufVec.write sink (WriteBufVec.new s0) chunk).2.2 =
      [SinkCall.write []] ∧
    ∀ e s', sink.write s0 [] = (Except.error e, s') →
      (WriteBufVec.write sink (WriteBufVec.new s0) chunk).1 = Except.error e ∧
      (WriteBufVec.write sink (WriteBufVec.new s0) chunk).2.1.buf = [] ∧
      (WriteBufVec.write sink (WriteBufVec.new s0) chunk).2.1.len = 0 := by
  have hnl : ¬ (chunk.length < 1024 * 1024) := by omega
  refine ⟨?_, ?_, ?_⟩
  · rcases h1 : sink.write s0 [] with ⟨r1, s1⟩
    cases r1 <;> simp [WriteBufVec.flush, WriteBufVec.new, h1]
  · rcases h1 : sink.write s0 [] with ⟨r1, s1⟩
    cases r1 <;>
      simp [WriteBufVec.write, WriteBufVec.flush, WriteBufVec.new, hnl, h1]
  · intro e s' hfail
    simp [WriteBufVec.write, WriteBufVec.flush, WriteBufVec.new, hnl, hfail]

theorem claimC10_witness :
    (WriteBufVec.flush failSink (WriteBufVec.new ())).2.2 =
      [SinkCall.write []] ∧
    (WriteBufVec.write failSink (WriteBufVec.new ())
        (List.replicate (1024 * 1024) 9)).1 = Except.error () ∧
    (WriteBufVec.write failSink (WriteBufVec.new ())
        (List.replicate (1024 * 1024) 9)).2.1.len = 0 := by
  have hle : 1024 * 1024 ≤ (List.replicate (1024 * 1024) 9).length := by
    rw [List.length_replicate]
  have h := claimC10 failSink () (List.replicate (1024 * 1024) 9) hle
  exact ⟨h.1, (h.2.2 () () rfl).1, (h.2.2 () () rfl).2.2⟩
